import Mathlib

/-!
Verification development for the yagna decentralized-market event engine
(subscription registry, per-subscription event queue, `query_events`
semantics, proposal state machine) and the zksync payment-driver
`get_nonce` helper.

The engine implementation is not present in the repository snapshot
(only its integration tests under
`core/market/decentralized/tests/test_initial_proposal.rs` are), so the
engine's data model and operations are modelled from the specification
(spec.md sections 3 to 5, 4.1, 4.2, 4.4, 7) and checked against the
behaviours the tests pin down.  `get_nonce` is embedded directly from
`core/payment-driver/zksync/src/zksync/wallet.rs`.
-/

namespace Yagna

/-! ## Proposal state machine (spec section 4.4) -/

/-- Modelled from the spec: proposal states
`{Initial, Draft, Accepted, Rejected, Expired}` (spec section 3,
"Proposal"); the implementation's `State` enum is not in the snapshot. -/
inductive PState where
  | Initial
  | Draft
  | Accepted
  | Rejected
  | Expired
deriving DecidableEq, Repr

/-- Modelled from the spec: the transition relation of section 4.4,
`Initial → Draft → {Accepted, Rejected}`, plus any non-terminal state
`→ Expired` on deadline. -/
def canTransition : PState → PState → Bool
  | .Initial, .Draft => true
  | .Draft, .Accepted => true
  | .Draft, .Rejected => true
  | .Initial, .Expired => true
  | .Draft, .Expired => true
  | _, _ => false

/-- Modelled from the spec: a Proposal record
`{ id, subscription_id, prev_proposal_id : Option, state }`
(spec section 3); body/issuer/timestamps are omitted as no claim
mentions them. -/
structure Proposal where
  proposal_id : Nat
  subscription_id : Nat
  prev_proposal_id : Option Nat
  state : PState
deriving DecidableEq, Repr

/-- Modelled from the spec: the ProposalStore, "an arena of Proposal
records indexed by id" (spec section 9). -/
abbrev ProposalStore := List Proposal

def findProposal (ps : ProposalStore) (i : Nat) : Option Proposal :=
  ps.find? (fun p => p.proposal_id == i)

/-- Modelled from the spec: the two ways a Proposal record is created —
an `Initial` proposal created by the Matcher (spec section 4.3), and a
successor record appended by a state transition, "linked via
`prev_proposal_id` to its predecessor", with "chain integrity validated
at insertion (predecessor must exist and be on the same subscription)"
(spec sections 4.4 and 9). -/
inductive StoreStep : ProposalStore → ProposalStore → Prop where
  | insertInitial (ps : ProposalStore) (pid subId : Nat)
      (fresh : findProposal ps pid = none) :
      StoreStep ps
        ({ proposal_id := pid, subscription_id := subId,
           prev_proposal_id := none, state := .Initial } :: ps)
  | insertSuccessor (ps : ProposalStore) (pid : Nat) (pred : Proposal)
      (newState : PState)
      (fresh : findProposal ps pid = none)
      (hpred : pred ∈ ps)
      (htrans : canTransition pred.state newState = true) :
      StoreStep ps
        ({ proposal_id := pid, subscription_id := pred.subscription_id,
           prev_proposal_id := some pred.proposal_id, state := newState } :: ps)

/-- Reachable proposal stores: everything built from the empty store by
Matcher insertions and negotiation transitions. -/
inductive StoreReach : ProposalStore → Prop where
  | init : StoreReach []
  | step {ps ps' : ProposalStore} : StoreReach ps → StoreStep ps ps' → StoreReach ps'

theorem canTransition_target_ne_initial {a b : PState}
    (h : canTransition a b = true) : b ≠ PState.Initial := by
  cases a <;> cases b <;> simp [canTransition] at h ⊢

/-- C9 — For every Proposal record in the system, `prev_proposal_id = None`
implies state `Initial` (equivalently, every `Initial` proposal has
`prev_proposal_id = None`), and every non-`Initial` proposal's
`prev_proposal_id` references a proposal of the same subscription. -/
theorem c9_proposal_chain_invariant (ps : ProposalStore) (h : StoreReach ps) :
    ∀ p ∈ ps,
      (p.prev_proposal_id = none → p.state = PState.Initial) ∧
      (p.state = PState.Initial → p.prev_proposal_id = none) ∧
      (p.state ≠ PState.Initial →
        ∃ q ∈ ps, p.prev_proposal_id = some q.proposal_id ∧
          q.subscription_id = p.subscription_id) := by
  induction h with
  | init => intro p hp; cases hp
  | step _ hstep ih =>
    cases hstep with
    | insertInitial pid subId fresh =>
      intro p hp
      rcases List.mem_cons.mp hp with rfl | hmem
      · refine ⟨fun _ => rfl, fun _ => rfl, fun hne => absurd rfl hne⟩
      · obtain ⟨h1, h2, h3⟩ := ih p hmem
        refine ⟨h1, h2, fun hne => ?_⟩
        obtain ⟨q, hq, hq2⟩ := h3 hne
        exact ⟨q, List.mem_cons_of_mem _ hq, hq2⟩
    | insertSuccessor pid pred newState fresh hpred htrans =>
      intro p hp
      rcases List.mem_cons.mp hp with rfl | hmem
      · refine ⟨fun hcontra => by simp at hcontra,
          fun hstate => absurd hstate (canTransition_target_ne_initial htrans),
          fun _ => ⟨pred, List.mem_cons_of_mem _ hpred, rfl, rfl⟩⟩
      · obtain ⟨h1, h2, h3⟩ := ih p hmem
        refine ⟨h1, h2, fun hne => ?_⟩
        obtain ⟨q, hq, hq2⟩ := h3 hne
        exact ⟨q, List.mem_cons_of_mem _ hq, hq2⟩

/-- Witness for C9: in the reachable store holding one Matcher-created
Initial proposal, that proposal (which has `prev_proposal_id = none`)
is in state `Initial`. -/
theorem c9_proposal_chain_invariant_witness :
    ({ proposal_id := 0, subscription_id := 0, prev_proposal_id := none,
       state := PState.Initial } : Proposal).state = PState.Initial :=
  (c9_proposal_chain_invariant _
    (StoreReach.step StoreReach.init (StoreStep.insertInitial [] 0 0 rfl))
    _ (List.mem_singleton.mpr rfl)).1 rfl

/-! ## Event queues and `query_events` (spec sections 3, 4.1, 4.2, 7) -/

/-- Modelled from the spec: an Event is "an immutable wrapper around a
Proposal" carrying "a strictly increasing per-subscription sequence
number used as the delivery cursor" (spec section 3). -/
structure Event where
  seqNo : Nat
  proposal : Proposal
deriving DecidableEq, Repr

/-- Modelled from the spec: the `QueryEventsError` kinds of spec
section 7 (`Timeout` is reserved for collaborator operations and never
produced by `query_events`, so it is omitted; `Forbidden` belongs to
`unsubscribe`). -/
inductive QueryEventsError where
  | InvalidMaxEvents (n : Int)
  | Unsubscribed (id : Nat)
  | NotFound
deriving DecidableEq, Repr

/-- Modelled from the spec: error kinds of `unsubscribe`
(spec section 4.1). -/
inductive UnsubscribeError where
  | NotFound
  | Forbidden
deriving DecidableEq, Repr

/-- Modelled from the spec: one subscription's EventQueue — "an ordered
sequence of undelivered Events plus a delivery cursor recording the
sequence number of the last event handed to any caller" (spec
section 3) — together with the owning identity of the Subscription
(spec section 3, "Subscription").  `nextSeq` is the sequence number the
next injected event will receive; `cursor` counts the events already
delivered, so the pending events are exactly those with sequence
numbers in `[cursor, nextSeq)`. -/
structure SubQueue where
  owner : Nat
  queue : List Event
  cursor : Nat
  nextSeq : Nat
deriving DecidableEq, Repr

/-- Modelled from the spec: the lifecycle of a subscription id — live
with its queue, or logically destroyed ("destroyed logically, not
physically", spec section 3); an id absent from the map never existed,
which is what makes `NotFound` and `Unsubscribed` observably distinct
(spec sections 4.2 rule 5 and 7). -/
inductive SubState where
  | active (sq : SubQueue)
  | removed
deriving DecidableEq, Repr

/-- Modelled from the spec: the SubscriptionRegistry's id-indexed map of
subscriptions (spec sections 2 and 4.1), as an association list. -/
abbrev SubMap := List (Nat × SubState)

def lookupSub (m : SubMap) (i : Nat) : Option SubState :=
  (m.find? (fun p => p.1 == i)).map (fun p => p.2)

def updateSub (m : SubMap) (i : Nat) (s : SubState) : SubMap :=
  m.map (fun p => if p.1 == i then (i, s) else p)

/-- Cap a pending-event list to `max_events`: all of them when `None`,
else the oldest `n` (spec section 4.2 rules 3 and 4). -/
def capTake (maxEvents : Option Int) (q : List Event) : List Event :=
  match maxEvents with
  | none => q
  | some n => q.take n.toNat

/-- Atomically hand out a batch from the front of the queue and advance
the delivery cursor past it (spec section 3, EventQueue invariant). -/
def drain (sq : SubQueue) (maxEvents : Option Int) : List Event × SubQueue :=
  let batch := capTake maxEvents sq.queue
  (batch,
   { sq with queue := sq.queue.drop batch.length,
             cursor := sq.cursor + batch.length })

instance {ε α : Type} [DecidableEq ε] [DecidableEq α] :
    DecidableEq (Except ε α) := fun x y =>
  match x, y with
  | .ok a, .ok b =>
    if h : a = b then .isTrue (by rw [h]) else .isFalse (by simp [h])
  | .error e, .error f =>
    if h : e = f then .isTrue (by rw [h]) else .isFalse (by simp [h])
  | .ok _, .error _ => .isFalse (by simp)
  | .error _, .ok _ => .isFalse (by simp)

/-- Outcome of the synchronous part of `query_events`: either a result
is produced immediately (with the updated subscription map), or the
caller suspends as a waiter (spec section 4.2 rule 5). -/
inductive QueryOutcome where
  | done (r : Except QueryEventsError (List Event)) (m : SubMap)
  | suspend
deriving DecidableEq, Repr

/-- Rules 2 to 5 of spec section 4.2, after `max_events` validation:
resolve the subscription (`NotFound` for an id that never existed,
`Unsubscribed` for one already removed), answer `Some 0` caps with `[]`
immediately, drain pending events immediately when there are any, and
otherwise poll (`timeout < 0`) or suspend. -/
def queryEventsChecked (m : SubMap) (id : Nat) (timeout : Int)
    (maxEvents : Option Int) : QueryOutcome :=
  match lookupSub m id with
  | none => .done (.error .NotFound) m
  | some .removed => .done (.error (.Unsubscribed id)) m
  | some (.active sq) =>
    if maxEvents = some 0 then .done (.ok []) m
    else if sq.queue = [] then
      if timeout < 0 then .done (.ok []) m else .suspend
    else
      .done (.ok (drain sq maxEvents).1)
        (updateSub m id (.active (drain sq maxEvents).2))

/-- Modelled from the spec: the synchronous part of
`query_events(subscription_id, timeout_seconds, max_events)` — spec
section 4.2, rules 1 to 5.  Only the sign of the timeout governs the
poll-versus-wait decision, so the timeout is carried as an integer;
real elapsed time is outside the embedding and modelled by the
`timeoutStep` of the system transition relation. -/
def queryEvents (m : SubMap) (id : Nat) (timeout : Int)
    (maxEvents : Option Int) : QueryOutcome :=
  match maxEvents with
  | some n =>
    if n < 0 then .done (.error (.InvalidMaxEvents n)) m
    else queryEventsChecked m id timeout maxEvents
  | none => queryEventsChecked m id timeout none

/-- Modelled from the spec: `unsubscribe(id, owner)` — `NotFound` if the
id is unknown, `Forbidden` on owner mismatch, otherwise the subscription
is removed (spec section 4.1); the waiter cancellation it triggers is
modelled by the `unsub` step of the system transition relation. -/
def unsubscribeSub (m : SubMap) (id : Nat) (owner : Nat) :
    Except UnsubscribeError SubMap :=
  match lookupSub m id with
  | some (.active sq) =>
    if sq.owner = owner then .ok (updateSub m id .removed)
    else .error .Forbidden
  | some .removed => .error .NotFound
  | none => .error .NotFound

/-- Validity of a `max_events` argument (spec section 4.2 rule 1). -/
def capOK (maxEvents : Option Int) : Prop :=
  match maxEvents with
  | some n => 0 ≤ n
  | none => True

instance (maxEvents : Option Int) : Decidable (capOK maxEvents) := by
  unfold capOK; cases maxEvents <;> infer_instance

/-! ### Association-list lemmas -/

theorem lookupSub_cons (k : Nat) (st : SubState) (m : SubMap) (j : Nat) :
    lookupSub ((k, st) :: m) j = if k = j then some st else lookupSub m j := by
  by_cases h : k = j
  · simp [lookupSub, List.find?, h]
  · have hb : (k == j) = false := by simpa using h
    simp [lookupSub, List.find?, hb, h]

theorem updateSub_cons (k : Nat) (st : SubState) (m : SubMap) (i : Nat)
    (s : SubState) :
    updateSub ((k, st) :: m) i s =
      (if k = i then (i, s) else (k, st)) :: updateSub m i s := by
  by_cases hk : k = i <;> simp [updateSub, hk]

theorem lookupSub_updateSub_ne (m : SubMap) (i j : Nat) (s : SubState)
    (h : j ≠ i) : lookupSub (updateSub m i s) j = lookupSub m j := by
  induction m with
  | nil => rfl
  | cons p ps ih =>
    obtain ⟨k, st⟩ := p
    rw [updateSub_cons]
    by_cases hk : k = i
    · rw [if_pos hk, lookupSub_cons, lookupSub_cons,
        if_neg (fun hc => h hc.symm), if_neg (fun hc => h (hk ▸ hc).symm)]
      exact ih
    · rw [if_neg hk, lookupSub_cons, lookupSub_cons]
      by_cases hkj : k = j
      · simp [hkj]
      · rw [if_neg hkj, if_neg hkj]; exact ih

theorem lookupSub_updateSub_self (m : SubMap) (i : Nat) (s : SubState)
    (h : lookupSub m i ≠ none) :
    lookupSub (updateSub m i s) i = some s := by
  induction m with
  | nil => simp [lookupSub] at h
  | cons p ps ih =>
    obtain ⟨k, st⟩ := p
    rw [updateSub_cons]
    by_cases hk : k = i
    · rw [if_pos hk, lookupSub_cons, if_pos rfl]
    · rw [lookupSub_cons, if_neg hk] at h
      rw [if_neg hk, lookupSub_cons, if_neg hk]
      exact ih h

theorem unsubscribeSub_ok {m : SubMap} {id owner : Nat} {m' : SubMap}
    (h : unsubscribeSub m id owner = .ok m') :
    ∃ sq, lookupSub m id = some (.active sq) ∧ sq.owner = owner ∧
      m' = updateSub m id .removed := by
  unfold unsubscribeSub at h
  split at h
  next sq hls =>
    split at h
    next hown => exact ⟨sq, hls, hown, ((Except.ok.injEq _ _).mp h).symm⟩
    next hown => exact absurd h (by simp)
  next hls => exact absurd h (by simp)
  next hls => exact absurd h (by simp)

/-- Result component of a query outcome, forgetting the updated map. -/
def outcomeResult : QueryOutcome → Option (Except QueryEventsError (List Event))
  | .done r _ => some r
  | .suspend => none

theorem queryEventsChecked_result_congr (m₁ m₂ : SubMap) (id : Nat)
    (t : Int) (cap : Option Int) (h : lookupSub m₁ id = lookupSub m₂ id) :
    outcomeResult (queryEventsChecked m₁ id t cap) =
      outcomeResult (queryEventsChecked m₂ id t cap) := by
  unfold queryEventsChecked
  rw [h]
  cases lookupSub m₂ id with
  | none => rfl
  | some st =>
    cases st with
    | removed => rfl
    | active sq =>
      by_cases h0 : cap = some 0
      · simp [h0, outcomeResult]
      · by_cases hq : sq.queue = []
        · by_cases ht : t < 0 <;> simp [h0, hq, ht, outcomeResult]
        · simp [h0, hq, outcomeResult]

theorem queryEvents_result_congr (m₁ m₂ : SubMap) (id : Nat) (t : Int)
    (cap : Option Int) (h : lookupSub m₁ id = lookupSub m₂ id) :
    outcomeResult (queryEvents m₁ id t cap) =
      outcomeResult (queryEvents m₂ id t cap) := by
  unfold queryEvents
  cases cap with
  | none => exact queryEventsChecked_result_congr m₁ m₂ id t none h
  | some n =>
    by_cases hn : n < 0
    · simp [hn, outcomeResult]
    · simp only [if_neg hn]
      exact queryEventsChecked_result_congr m₁ m₂ id t (some n) h

/-! ### Concrete fixtures used by the witnesses -/

/-- A sample Matcher-created Initial proposal. -/
def sampleProposal : Proposal := ⟨3, 0, none, PState.Initial⟩

/-- A sample event wrapping `sampleProposal`, sequence number 0. -/
def sampleEvent : Event := ⟨0, sampleProposal⟩

/-- A sample live queue: one pending event, nothing delivered yet. -/
def sampleQueue : SubQueue := ⟨7, [sampleEvent], 0, 1⟩

/-- A sample registry: subscription 0 live with one pending event. -/
def sampleMap : SubMap := [(0, SubState.active sampleQueue)]

/-- A sample registry with two live subscriptions (0 has one pending
event, 1 has none). -/
def sampleMap2 : SubMap :=
  [(0, SubState.active sampleQueue),
   (1, SubState.active ⟨7, [], 0, 0⟩)]

/-! ### Claims about the immediate paths of `query_events` -/

/-- C5 — a negative `max_events` cap fails immediately with
`InvalidMaxEvents(n)` whatever the timeout and pending events are, and
the subscription map (hence every pending queue) is returned
untouched. -/
theorem c5_invalid_max_events (m : SubMap) (id : Nat) (t : Int) (n : Int)
    (hn : n < 0) :
    queryEvents m id t (some n) =
      .done (.error (.InvalidMaxEvents n)) m := by
  simp [queryEvents, hn]

/-- Witness for C5: the test's call `query_events(id, 0.0, Some(-5))`
on a map holding one pending event. -/
theorem c5_invalid_max_events_witness :
    (-5 : Int) < 0 ∧
    queryEvents sampleMap 0 0 (some (-5)) =
      .done (.error (.InvalidMaxEvents (-5))) sampleMap :=
  ⟨by decide, c5_invalid_max_events sampleMap 0 0 (-5) (by decide)⟩

/-- C6 — `max_events = Some 0` on an existing subscription returns `[]`
immediately for any timeout, leaves the map untouched, and a following
call with a large enough positive cap still receives every event that
was pending. -/
theorem c6_zero_max_events (m : SubMap) (id : Nat) (sq : SubQueue)
    (t : Int) (hl : lookupSub m id = some (.active sq)) :
    queryEvents m id t (some 0) = .done (.ok []) m ∧
    ∀ n : Int, 0 < n → sq.queue.length ≤ n.toNat →
      ∃ m'', queryEvents m id (-1) (some n) = .done (.ok sq.queue) m'' := by
  constructor
  · simp [queryEvents, queryEventsChecked, hl]
  · intro n hn hlen
    have hn0 : ¬ n < 0 := by omega
    have hne0 : ¬ (some n = some (0 : Int)) := by simp; omega
    by_cases hq : sq.queue = []
    · refine ⟨m, ?_⟩
      simp [queryEvents, queryEventsChecked, hl, hq, hn0, hne0]
    · refine ⟨updateSub m id (.active (drain sq (some n)).2), ?_⟩
      have hb : (drain sq (some n)).1 = sq.queue := by
        simp [drain, capTake, List.take_of_length_le hlen]
      simp only [queryEvents, if_neg hn0, queryEventsChecked, hl, if_neg hne0,
        if_neg hq, hb]

/-- Witness for C6: the test scenario — one pending event, a
`Some 0` call returns `[]` without consuming it, and a following
`Some 5` call returns it. -/
theorem c6_zero_max_events_witness :
    lookupSub sampleMap 0 = some (.active sampleQueue) ∧
    (queryEvents sampleMap 0 1 (some 0) = .done (.ok []) sampleMap ∧
    ∀ n : Int, 0 < n → sampleQueue.queue.length ≤ n.toNat →
      ∃ m'', queryEvents sampleMap 0 (-1) (some n) =
        .done (.ok sampleQueue.queue) m'') :=
  ⟨by decide, c6_zero_max_events sampleMap 0 sampleQueue 1 (by decide)⟩

/-- C7 — a negative timeout is "poll now": the call never suspends, and
it immediately succeeds with the capped prefix of the pending queue
(all of it for `None`, the empty list when nothing is pending). -/
theorem c7_negative_timeout_polls (m : SubMap) (id : Nat) (sq : SubQueue)
    (t : Int) (cap : Option Int) (hl : lookupSub m id = some (.active sq))
    (ht : t < 0) (hcap : capOK cap) :
    queryEvents m id t cap ≠ .suspend ∧
    (∃ m'', queryEvents m id t cap = .done (.ok (capTake cap sq.queue)) m'') ∧
    capTake cap sq.queue <+: sq.queue := by
  have hpre : capTake cap sq.queue <+: sq.queue := by
    cases cap with
    | none => exact List.prefix_refl _
    | some n => exact List.take_prefix _ _
  have hdone : ∃ m'', queryEvents m id t cap =
      .done (.ok (capTake cap sq.queue)) m'' := by
    cases cap with
    | none =>
      by_cases hq : sq.queue = []
      · exact ⟨m, by simp [queryEvents, queryEventsChecked, hl, hq, ht, capTake]⟩
      · exact ⟨updateSub m id (.active (drain sq none).2),
          by simp [queryEvents, queryEventsChecked, hl, hq, drain]⟩
    | some n =>
      have hn0 : ¬ n < 0 := by simpa [capOK] using hcap
      by_cases hzero : n = 0
      · subst hzero
        exact ⟨m, by simp [queryEvents, queryEventsChecked, hl, hn0, capTake]⟩
      · have hne0 : ¬ (some n = some (0 : Int)) := by simpa using hzero
        by_cases hq : sq.queue = []
        · refine ⟨m, ?_⟩
          simp [queryEvents, queryEventsChecked, hl, hq, ht, hn0, hne0, capTake]
        · refine ⟨updateSub m id (.active (drain sq (some n)).2), ?_⟩
          simp only [queryEvents, if_neg hn0, queryEventsChecked, hl,
            if_neg hne0, if_neg hq, drain]
  refine ⟨?_, hdone, hpre⟩
  obtain ⟨m'', hm⟩ := hdone
  rw [hm]
  exact fun hc => QueryOutcome.noConfusion hc

/-- Witness for C7: the test's call `query_events(id, -5.0, None)` with
one pending event returns exactly that event without suspending. -/
theorem c7_negative_timeout_polls_witness :
    lookupSub sampleMap 0 = some (.active sampleQueue) ∧
    (-5 : Int) < 0 ∧ capOK none ∧
    (queryEvents sampleMap 0 (-5) none ≠ .suspend ∧
    (∃ m'', queryEvents sampleMap 0 (-5) none =
      .done (.ok (capTake none sampleQueue.queue)) m'') ∧
    capTake none sampleQueue.queue <+: sampleQueue.queue) :=
  ⟨by decide, by decide, trivial,
    c7_negative_timeout_polls sampleMap 0 sampleQueue (-5) none
      (by decide) (by decide) trivial⟩

/-- C4 (amended) — `NotFound` is returned exactly for subscription ids
that never existed; a subscription removed before the call fails with
`Unsubscribed(id)` (and, per C3, so does one removed while the call is
waiting); the two errors are observably distinct values. -/
theorem c4_error_distinction (m : SubMap) (id : Nat) (t : Int)
    (cap : Option Int) (hcap : capOK cap) :
    (lookupSub m id = none →
      queryEvents m id t cap = .done (.error .NotFound) m) ∧
    (lookupSub m id = some .removed →
      queryEvents m id t cap = .done (.error (.Unsubscribed id)) m) ∧
    QueryEventsError.Unsubscribed id ≠ QueryEventsError.NotFound := by
  refine ⟨fun hl => ?_, fun hl => ?_, by simp⟩ <;>
  · cases cap with
    | none => simp [queryEvents, queryEventsChecked, hl]
    | some n =>
      have hn0 : ¬ n < 0 := by simpa [capOK] using hcap
      simp [queryEvents, queryEventsChecked, hl, hn0]

/-- Witness for C4's amended statement: an unknown id versus a removed
one. -/
theorem c4_error_distinction_witness :
    capOK (some 5) ∧
    (lookupSub [(0, SubState.removed)] 1 = none →
      queryEvents [(0, SubState.removed)] 1 0 (some 5) =
        .done (.error .NotFound) [(0, SubState.removed)]) ∧
    (lookupSub [(0, SubState.removed)] 1 = some .removed →
      queryEvents [(0, SubState.removed)] 1 0 (some 5) =
        .done (.error (.Unsubscribed 1)) [(0, SubState.removed)]) ∧
    QueryEventsError.Unsubscribed 1 ≠ QueryEventsError.NotFound :=
  ⟨by decide, c4_error_distinction [(0, SubState.removed)] 1 0 (some 5) (by decide)⟩

/-- Counterexample to C4 as stated: the claim reads "for every
subscription id … that was already removed before the call began,
query_events fails with NotFound", but — exactly as the repository's
own test `test_query_events_edge_cases` asserts at lines 201–213 — a
subscription unsubscribed before the call fails with `Unsubscribed(id)`,
which is distinct from `NotFound`. -/
theorem c4_counterexample :
    unsubscribeSub [(0, SubState.active ⟨7, [], 0, 0⟩)] 0 7 =
      .ok [(0, SubState.removed)] ∧
    queryEvents [(0, SubState.removed)] 0 0 none =
      .done (.error (.Unsubscribed 0)) [(0, SubState.removed)] ∧
    QueryEventsError.Unsubscribed 0 ≠ QueryEventsError.NotFound := by
  decide

/-- C8 — unsubscribing subscription `C` neither changes a distinct
subscription `B`'s registry entry (its pending queue, cursor and owner
are untouched) nor the result of any `query_events` call on `B`. -/
theorem c8_subscription_isolation (m : SubMap) (B C owner : Nat)
    (m' : SubMap) (hne : B ≠ C) (hok : unsubscribeSub m C owner = .ok m') :
    lookupSub m' B = lookupSub m B ∧
    ∀ t cap, outcomeResult (queryEvents m' B t cap) =
      outcomeResult (queryEvents m B t cap) := by
  obtain ⟨sq, _, _, rfl⟩ := unsubscribeSub_ok hok
  have hframe : lookupSub (updateSub m C .removed) B = lookupSub m B :=
    lookupSub_updateSub_ne m C B _ hne
  exact ⟨hframe, fun t cap => queryEvents_result_congr _ m B t cap hframe⟩

/-- Witness for C8: two live subscriptions, one pending event on
subscription 0; unsubscribing subscription 1 leaves subscription 0's
entry and query results unchanged. -/
theorem c8_subscription_isolation_witness :
    (0 : Nat) ≠ 1 ∧
    unsubscribeSub sampleMap2 1 7 =
      .ok [(0, SubState.active sampleQueue), (1, SubState.removed)] ∧
    lookupSub [(0, SubState.active sampleQueue), (1, SubState.removed)] 0 =
      lookupSub sampleMap2 0 ∧
    ∀ t cap, outcomeResult (queryEvents
        [(0, SubState.active sampleQueue), (1, SubState.removed)] 0 t cap) =
      outcomeResult (queryEvents sampleMap2 0 t cap) :=
  ⟨by decide, by decide,
    c8_subscription_isolation sampleMap2 0 1 7 _ (by decide) (by decide)⟩

/-! ## The concurrent engine: waiters, wake-up, cancellation, timeout
(spec sections 4.2 rule 5, 5 and 9)

Concurrency is modelled as an interleaving of atomic steps: the spec
requires every queue drain, event insertion and cancellation broadcast
to happen under the queue's single unit of mutual exclusion (spec
section 5, "Shared-resource policy", and section 9, "waking must
re-check the predicate … under the lock"), so each such critical
section is one transition of a labelled transition system. -/

/-- A caller suspended inside `query_events` (spec section 4.2
rule 5): its task id, the subscription it waits on, and its requested
cap. -/
structure Waiter where
  caller : Nat
  subId : Nat
  maxEvents : Option Int
deriving DecidableEq, Repr

/-- Global state of the engine: the subscription registry, the set of
suspended callers, and the log of completed `query_events` calls
`(caller, subscription_id, result)`. -/
structure SysState where
  subs : SubMap
  waiters : List Waiter
  completed : List (Nat × Nat × Except QueryEventsError (List Event))
deriving DecidableEq, Repr

/-- A caller id not yet used by a pending or completed call (each
inbound request is a fresh logical task, spec section 5). -/
def freshCaller (s : SysState) (c : Nat) : Prop :=
  (∀ w ∈ s.waiters, w.caller ≠ c) ∧ ∀ e ∈ s.completed, e.1 ≠ c

instance (s : SysState) (c : Nat) : Decidable (freshCaller s c) := by
  unfold freshCaller; infer_instance

/-- Effect of a successful `unsubscribe(id)` on the whole system:
install the updated registry, and atomically complete every waiter on
`id` with `Unsubscribed(id)` — the broadcast cancellation of spec
sections 4.1 and 5. -/
def unsubApply (s : SysState) (id : Nat) (m' : SubMap) : SysState :=
  { subs := m',
    waiters := s.waiters.filter (fun w => !(w.subId == id)),
    completed :=
      (s.waiters.filter (fun w => w.subId == id)).map
        (fun w => (w.caller, w.subId, .error (.Unsubscribed id))) ++
      s.completed }

/-- Append a newly created proposal to a live queue as an event,
stamping it with the next sequence number (spec section 3, Event). -/
def injectEvent (sq : SubQueue) (p : Proposal) : SubQueue :=
  ⟨sq.owner, sq.queue ++ [⟨sq.nextSeq, p⟩], sq.cursor, sq.nextSeq + 1⟩

/-- Modelled from the spec: the atomic transitions of the engine —
`subscribe` (spec section 4.1), the immediate and suspending paths of
`query_events` (section 4.2), event injection by the Matcher or the
test harness (sections 4.3 and 6), waking a waiter to drain newly
arrived events, a waiter's timeout elapsing with an empty queue
(section 4.2 rule 5b), and `unsubscribe` with its cancellation
broadcast (sections 4.1 and 5). -/
inductive Step : SysState → SysState → Prop where
  | subscribe (s : SysState) (id owner : Nat)
      (fresh : lookupSub s.subs id = none) :
      Step s { s with subs := (id, .active ⟨owner, [], 0, 0⟩) :: s.subs }
  | queryDone (s : SysState) (caller id : Nat) (t : Int) (cap : Option Int)
      (r : Except QueryEventsError (List Event)) (m' : SubMap)
      (hfresh : freshCaller s caller)
      (h : queryEvents s.subs id t cap = .done r m') :
      Step s { s with subs := m', completed := (caller, id, r) :: s.completed }
  | querySuspend (s : SysState) (caller id : Nat) (t : Int) (cap : Option Int)
      (hfresh : freshCaller s caller)
      (h : queryEvents s.subs id t cap = .suspend) :
      Step s { s with waiters := ⟨caller, id, cap⟩ :: s.waiters }
  | inject (s : SysState) (id : Nat) (sq : SubQueue) (p : Proposal)
      (h : lookupSub s.subs id = some (.active sq)) :
      Step s { s with subs := updateSub s.subs id (.active (injectEvent sq p)) }
  | wake (s : SysState) (w : Waiter) (sq : SubQueue)
      (hw : w ∈ s.waiters)
      (h : lookupSub s.subs w.subId = some (.active sq))
      (hne : sq.queue ≠ []) :
      Step s
        { subs := updateSub s.subs w.subId (.active (drain sq w.maxEvents).2),
          waiters := s.waiters.erase w,
          completed :=
            (w.caller, w.subId, .ok (drain sq w.maxEvents).1) :: s.completed }
  | timeoutStep (s : SysState) (w : Waiter) (sq : SubQueue)
      (hw : w ∈ s.waiters)
      (h : lookupSub s.subs w.subId = some (.active sq))
      (hq : sq.queue = []) :
      Step s { s with
          waiters := s.waiters.erase w,
          completed := (w.caller, w.subId, .ok []) :: s.completed }
  | unsub (s : SysState) (id owner : Nat) (m' : SubMap)
      (h : unsubscribeSub s.subs id owner = .ok m') :
      Step s (unsubApply s id m')

/-- The empty engine at node start-up (spec section 9, "Global engine
state"). -/
def initState : SysState := ⟨[], [], []⟩

/-- Finite interleavings of atomic steps. -/
inductive Steps : SysState → SysState → Prop where
  | refl (s : SysState) : Steps s s
  | tail {s t u : SysState} : Steps s t → Step t u → Steps s u

/-- States the engine can actually be in. -/
def Reach (s : SysState) : Prop := Steps initState s

theorem Steps.trans {s t u : SysState} (h₁ : Steps s t) (h₂ : Steps t u) :
    Steps s u := by
  induction h₂ with
  | refl => exact h₁
  | tail _ hstep ih => exact Steps.tail ih hstep

/-! ### Delivery bookkeeping -/

/-- Extract the batch of a completed entry when it is a successful
`query_events` result on subscription `id`. -/
def isOkBatchFor (id : Nat)
    (e : Nat × Nat × Except QueryEventsError (List Event)) :
    Option (List Event) :=
  if e.2.1 = id then
    match e.2.2 with
    | .ok b => some b
    | .error _ => none
  else none

/-- All event batches successfully returned so far for subscription
`id`. -/
def subBatchesL
    (completed : List (Nat × Nat × Except QueryEventsError (List Event)))
    (id : Nat) : List (List Event) :=
  completed.filterMap (isOkBatchFor id)

/-- Sequence numbers of all events delivered so far for subscription
`id`, batch by batch. -/
def deliveredSeqsL
    (completed : List (Nat × Nat × Except QueryEventsError (List Event)))
    (id : Nat) : List Nat :=
  (subBatchesL completed id).flatten.map Event.seqNo

/-- The contiguous block of sequence numbers `[a, a + n)`. -/
def seqRange (a n : Nat) : List Nat := (List.range n).map (a + ·)

theorem seqRange_zero (a : Nat) : seqRange a 0 = [] := rfl

theorem seqRange_length (a n : Nat) : (seqRange a n).length = n := by
  simp [seqRange]

theorem seqRange_succ (a n : Nat) :
    seqRange a (n + 1) = seqRange a n ++ [a + n] := by
  simp [seqRange, List.range_succ]

theorem seqRange_append (a m k : Nat) :
    seqRange a (m + k) = seqRange a m ++ seqRange (a + m) k := by
  induction k with
  | zero => simp [seqRange_zero]
  | succ k ih =>
    rw [show m + (k + 1) = (m + k) + 1 by omega, seqRange_succ, ih,
      seqRange_succ, List.append_assoc, Nat.add_assoc]

theorem range_eq_seqRange (n : Nat) : List.range n = seqRange 0 n := by
  simp [seqRange]

theorem range_add_seqRange (a b : Nat) :
    List.range (a + b) = List.range a ++ seqRange a b := by
  rw [range_eq_seqRange, seqRange_append, ← range_eq_seqRange, Nat.zero_add]

theorem seqRange_take (a n k : Nat) :
    (seqRange a n).take k = seqRange a (min k n) := by
  rcases Nat.le_total k n with h | h
  · rw [Nat.min_eq_left h, show n = k + (n - k) by omega, seqRange_append,
      List.take_left' (seqRange_length a k)]
  · rw [Nat.min_eq_right h, List.take_of_length_le (by rw [seqRange_length]; omega)]

theorem seqRange_drop (a n k : Nat) :
    (seqRange a n).drop k = seqRange (a + min k n) (n - k) := by
  rcases Nat.le_total k n with h | h
  · rw [Nat.min_eq_left h, show n = k + (n - k) by omega, seqRange_append,
      List.drop_left' (seqRange_length a k)]
    congr 1
    omega
  · rw [Nat.min_eq_right h, List.drop_of_length_le (by rw [seqRange_length]; omega)]
    have : n - k = 0 := by omega
    rw [this, seqRange_zero]

theorem seqRange_nodup (a n : Nat) : (seqRange a n).Nodup :=
  (List.nodup_range n).map (fun x y h => by omega)

/-! ### Bookkeeping lemmas -/

theorem isOkBatchFor_error (id c i : Nat) (err : QueryEventsError) :
    isOkBatchFor id (c, i, .error err) = none := by
  unfold isOkBatchFor
  split <;> rfl

theorem subBatchesL_cons_error (comp : List (Nat × Nat × Except QueryEventsError (List Event)))
    (id c i : Nat) (err : QueryEventsError) :
    subBatchesL ((c, i, .error err) :: comp) id = subBatchesL comp id := by
  rw [subBatchesL, List.filterMap_cons, isOkBatchFor_error]
  rfl

theorem subBatchesL_cons_ok_self (comp : List (Nat × Nat × Except QueryEventsError (List Event)))
    (id c : Nat) (b : List Event) :
    subBatchesL ((c, id, .ok b) :: comp) id = b :: subBatchesL comp id := by
  rw [subBatchesL, List.filterMap_cons]
  simp [isOkBatchFor]
  rfl

theorem subBatchesL_cons_ok_ne (comp : List (Nat × Nat × Except QueryEventsError (List Event)))
    (id c i : Nat) (b : List Event) (h : i ≠ id) :
    subBatchesL ((c, i, .ok b) :: comp) id = subBatchesL comp id := by
  rw [subBatchesL, List.filterMap_cons]
  simp [isOkBatchFor, h]
  rfl

theorem deliveredSeqsL_cons_error (comp : List (Nat × Nat × Except QueryEventsError (List Event)))
    (id c i : Nat) (err : QueryEventsError) :
    deliveredSeqsL ((c, i, .error err) :: comp) id = deliveredSeqsL comp id := by
  rw [deliveredSeqsL, subBatchesL_cons_error]
  rfl

theorem deliveredSeqsL_cons_ok_self (comp : List (Nat × Nat × Except QueryEventsError (List Event)))
    (id c : Nat) (b : List Event) :
    deliveredSeqsL ((c, id, .ok b) :: comp) id =
      b.map Event.seqNo ++ deliveredSeqsL comp id := by
  rw [deliveredSeqsL, subBatchesL_cons_ok_self, List.flatten_cons,
    List.map_append]
  rfl

theorem deliveredSeqsL_cons_ok_ne (comp : List (Nat × Nat × Except QueryEventsError (List Event)))
    (id c i : Nat) (b : List Event) (h : i ≠ id) :
    deliveredSeqsL ((c, i, .ok b) :: comp) id = deliveredSeqsL comp id := by
  rw [deliveredSeqsL, subBatchesL_cons_ok_ne _ _ _ _ _ h]
  rfl

theorem subBatchesL_unsub_prepend (ws : List Waiter) (uid id : Nat)
    (comp : List (Nat × Nat × Except QueryEventsError (List Event))) :
    subBatchesL
      ((ws.map fun w => (w.caller, w.subId, .error (.Unsubscribed uid))) ++ comp)
      id = subBatchesL comp id := by
  induction ws with
  | nil => rfl
  | cons w ws ih =>
    rw [List.map_cons, List.cons_append, subBatchesL_cons_error]
    exact ih

theorem deliveredSeqsL_unsub_prepend (ws : List Waiter) (uid id : Nat)
    (comp : List (Nat × Nat × Except QueryEventsError (List Event))) :
    deliveredSeqsL
      ((ws.map fun w => (w.caller, w.subId, .error (.Unsubscribed uid))) ++ comp)
      id = deliveredSeqsL comp id := by
  rw [deliveredSeqsL, subBatchesL_unsub_prepend]
  rfl

/-! ### The global invariant

For each subscription id: the pending queue holds exactly the
contiguous block of sequence numbers `[cursor, nextSeq)` in order; the
events delivered so far are, up to permutation across callers, exactly
the sequence numbers `[0, cursor)` — so nothing is lost and nothing is
delivered twice; every returned batch is a contiguous ascending block
(FIFO); removed subscriptions keep a duplicate-free delivery history;
ids that never existed have no delivery history; and caller ids are
unique across pending and completed calls. -/

structure SCInv (m : SubMap)
    (completed : List (Nat × Nat × Except QueryEventsError (List Event))) :
    Prop where
  active_inv : ∀ id sq, lookupSub m id = some (.active sq) →
    sq.queue.map Event.seqNo = seqRange sq.cursor (sq.nextSeq - sq.cursor) ∧
    sq.cursor ≤ sq.nextSeq ∧
    (deliveredSeqsL completed id).Perm (List.range sq.cursor)
  removed_inv : ∀ id, lookupSub m id = some .removed →
    (deliveredSeqsL completed id).Nodup
  none_inv : ∀ id, lookupSub m id = none → subBatchesL completed id = []
  batch_contig : ∀ id b, b ∈ subBatchesL completed id →
    ∃ a, b.map Event.seqNo = seqRange a b.length

/-- Caller ids of all pending and completed calls. -/
def callerList (s : SysState) : List Nat :=
  s.waiters.map Waiter.caller ++ s.completed.map (fun e => e.1)

def Inv (s : SysState) : Prop :=
  SCInv s.subs s.completed ∧ (callerList s).Nodup

/-! ### Preservation of the invariant -/

theorem capTake_eq_take (cap : Option Int) (q : List Event) :
    ∃ k, capTake cap q = q.take k := by
  cases cap with
  | none => exact ⟨q.length, (List.take_length q).symm⟩
  | some t => exact ⟨t.toNat, rfl⟩

theorem scinv_consError {m : SubMap}
    {comp : List (Nat × Nat × Except QueryEventsError (List Event))}
    (h : SCInv m comp) (c i : Nat) (err : QueryEventsError) :
    SCInv m ((c, i, .error err) :: comp) := by
  refine ⟨fun id sq hl => ?_, fun id hl => ?_, fun id hl => ?_,
    fun id b hb => ?_⟩
  · rw [deliveredSeqsL_cons_error]
    exact h.active_inv id sq hl
  · rw [deliveredSeqsL_cons_error]
    exact h.removed_inv id hl
  · rw [subBatchesL_cons_error]
    exact h.none_inv id hl
  · rw [subBatchesL_cons_error] at hb
    exact h.batch_contig id b hb

theorem deliveredSeqsL_cons_ok_nil
    (comp : List (Nat × Nat × Except QueryEventsError (List Event)))
    (c i id : Nat) :
    deliveredSeqsL ((c, i, .ok []) :: comp) id = deliveredSeqsL comp id := by
  by_cases hi : i = id
  · subst hi
    rw [deliveredSeqsL_cons_ok_self]
    rfl
  · rw [deliveredSeqsL_cons_ok_ne _ _ _ _ _ hi]

theorem scinv_okNil {m : SubMap}
    {comp : List (Nat × Nat × Except QueryEventsError (List Event))}
    (h : SCInv m comp) (c id : Nat) (hl : lookupSub m id ≠ none) :
    SCInv m ((c, id, .ok []) :: comp) := by
  refine ⟨fun id' sq hl' => ?_, fun id' hl' => ?_, fun id' hl' => ?_,
    fun id' b hb => ?_⟩
  · rw [deliveredSeqsL_cons_ok_nil]
    exact h.active_inv id' sq hl'
  · rw [deliveredSeqsL_cons_ok_nil]
    exact h.removed_inv id' hl'
  · have hne : id ≠ id' := fun hc => hl (hc ▸ hl')
    rw [subBatchesL_cons_ok_ne _ _ _ _ _ hne]
    exact h.none_inv id' hl'
  · by_cases hi : id = id'
    · subst hi
      rw [subBatchesL_cons_ok_self] at hb
      rcases List.mem_cons.mp hb with rfl | hb'
      · exact ⟨0, by simp [seqRange_zero]⟩
      · exact h.batch_contig id b hb'
    · rw [subBatchesL_cons_ok_ne _ _ _ _ _ hi] at hb
      exact h.batch_contig id' b hb

theorem scinv_subscribe {m : SubMap}
    {comp : List (Nat × Nat × Except QueryEventsError (List Event))}
    (h : SCInv m comp) (id owner : Nat) (fresh : lookupSub m id = none) :
    SCInv ((id, .active ⟨owner, [], 0, 0⟩) :: m) comp := by
  refine ⟨fun id' sq hl' => ?_, fun id' hl' => ?_, fun id' hl' => ?_,
    fun id' b hb => h.batch_contig id' b hb⟩
  · rw [lookupSub_cons] at hl'
    by_cases hk : id = id'
    · rw [if_pos hk] at hl'
      obtain rfl : SubQueue.mk owner [] 0 0 = sq :=
        SubState.active.inj (Option.some.inj hl')
      subst hk
      refine ⟨rfl, Nat.le_refl 0, ?_⟩
      rw [deliveredSeqsL, h.none_inv id fresh]
      exact List.Perm.refl _
    · rw [if_neg hk] at hl'
      exact h.active_inv id' sq hl'
  · rw [lookupSub_cons] at hl'
    by_cases hk : id = id'
    · rw [if_pos hk] at hl'
      exact absurd hl' (by simp)
    · rw [if_neg hk] at hl'
      exact h.removed_inv id' hl'
  · rw [lookupSub_cons] at hl'
    by_cases hk : id = id'
    · rw [if_pos hk] at hl'
      exact absurd hl' (by simp)
    · rw [if_neg hk] at hl'
      exact h.none_inv id' hl'

theorem scinv_inject {m : SubMap}
    {comp : List (Nat × Nat × Except QueryEventsError (List Event))}
    {id : Nat} {sq : SubQueue} (h : SCInv m comp)
    (hl : lookupSub m id = some (.active sq)) (p : Proposal) :
    SCInv (updateSub m id (.active (injectEvent sq p))) comp := by
  have hself : lookupSub (updateSub m id (.active (injectEvent sq p))) id =
      some (.active (injectEvent sq p)) :=
    lookupSub_updateSub_self m id _ (by rw [hl]; exact fun hc => nomatch hc)
  obtain ⟨hq, hcn, hperm⟩ := h.active_inv id sq hl
  refine ⟨fun id' sq' hl' => ?_, fun id' hl' => ?_, fun id' hl' => ?_,
    fun id' b hb => h.batch_contig id' b hb⟩
  · by_cases hk : id' = id
    · subst hk
      rw [hself] at hl'
      obtain rfl : injectEvent sq p = sq' :=
        SubState.active.inj (Option.some.inj hl')
      refine ⟨?_, ?_, ?_⟩
      · show (sq.queue ++ [Event.mk sq.nextSeq p]).map Event.seqNo =
          seqRange sq.cursor (sq.nextSeq + 1 - sq.cursor)
        have hstep : sq.nextSeq + 1 - sq.cursor = (sq.nextSeq - sq.cursor) + 1 := by
          omega
        rw [hstep, seqRange_succ, List.map_append, hq]
        have htop : sq.cursor + (sq.nextSeq - sq.cursor) = sq.nextSeq := by omega
        rw [htop]
        rfl
      · show sq.cursor ≤ sq.nextSeq + 1
        omega
      · show (deliveredSeqsL comp id').Perm (List.range sq.cursor)
        exact hperm
    · rw [lookupSub_updateSub_ne m id id' _ hk] at hl'
      exact h.active_inv id' sq' hl'
  · by_cases hk : id' = id
    · subst hk
      rw [hself] at hl'
      exact absurd hl' (by simp)
    · rw [lookupSub_updateSub_ne m id id' _ hk] at hl'
      exact h.removed_inv id' hl'
  · by_cases hk : id' = id
    · subst hk
      rw [hself] at hl'
      exact absurd hl' (by simp)
    · rw [lookupSub_updateSub_ne m id id' _ hk] at hl'
      exact h.none_inv id' hl'

theorem scinv_drain {m : SubMap}
    {comp : List (Nat × Nat × Except QueryEventsError (List Event))}
    {id : Nat} {sq : SubQueue} (h : SCInv m comp)
    (hl : lookupSub m id = some (.active sq)) (caller : Nat)
    (cap : Option Int) :
    SCInv (updateSub m id (.active (drain sq cap).2))
      ((caller, id, .ok (drain sq cap).1) :: comp) := by
  obtain ⟨hq, hcn, hperm⟩ := h.active_inv id sq hl
  obtain ⟨k₀, hk₀⟩ := capTake_eq_take cap sq.queue
  have hqlen : sq.queue.length = sq.nextSeq - sq.cursor := by
    have := congrArg List.length hq
    simpa [seqRange_length] using this
  have hcaplen : (capTake cap sq.queue).length =
      min k₀ (sq.nextSeq - sq.cursor) := by
    rw [hk₀, List.length_take, hqlen]
  set k := min k₀ (sq.nextSeq - sq.cursor) with hkdef
  have hkle : k ≤ sq.nextSeq - sq.cursor := Nat.min_le_right _ _
  have hbatch : (drain sq cap).1 = sq.queue.take k₀ := by
    simp [drain, hk₀]
  have hblen : (drain sq cap).1.length = k := by
    rw [hbatch, List.length_take, hqlen]
  have hbseqs : (drain sq cap).1.map Event.seqNo = seqRange sq.cursor k := by
    rw [hbatch, List.map_take, hq, seqRange_take]
  have hsq' : (drain sq cap).2 =
      ⟨sq.owner, sq.queue.drop k, sq.cursor + k, sq.nextSeq⟩ := by
    simp only [drain]
    rw [hcaplen]
  have hself : lookupSub (updateSub m id (.active (drain sq cap).2)) id =
      some (.active (drain sq cap).2) :=
    lookupSub_updateSub_self m id _ (by rw [hl]; exact fun hc => nomatch hc)
  have hdel : (deliveredSeqsL ((caller, id, .ok (drain sq cap).1) :: comp)
      id).Perm (List.range (sq.cursor + k)) := by
    rw [deliveredSeqsL_cons_ok_self, hbseqs, range_add_seqRange]
    exact List.Perm.trans List.perm_append_comm (hperm.append_right _)
  refine ⟨fun id' sq' hl' => ?_, fun id' hl' => ?_, fun id' hl' => ?_,
    fun id' b hb => ?_⟩
  · by_cases hk' : id' = id
    · subst hk'
      rw [hself] at hl'
      obtain rfl : (drain sq cap).2 = sq' :=
        SubState.active.inj (Option.some.inj hl')
      rw [hsq']
      refine ⟨?_, ?_, ?_⟩
      · show (sq.queue.drop k).map Event.seqNo =
          seqRange (sq.cursor + k) (sq.nextSeq - (sq.cursor + k))
        rw [List.map_drop, hq, seqRange_drop, Nat.min_eq_left hkle,
          Nat.sub_sub]
      · show sq.cursor + k ≤ sq.nextSeq
        omega
      · show (deliveredSeqsL ((caller, id', .ok (drain sq cap).1) :: comp)
            id').Perm (List.range (sq.cursor + k))
        exact hdel
    · rw [lookupSub_updateSub_ne m id id' _ hk'] at hl'
      obtain ⟨h1, h2, h3⟩ := h.active_inv id' sq' hl'
      refine ⟨h1, h2, ?_⟩
      rw [deliveredSeqsL_cons_ok_ne _ _ _ _ _ (fun hc => hk' hc.symm)]
      exact h3
  · by_cases hk' : id' = id
    · subst hk'
      rw [hself] at hl'
      exact absurd hl' (by simp)
    · rw [lookupSub_updateSub_ne m id id' _ hk'] at hl'
      rw [deliveredSeqsL_cons_ok_ne _ _ _ _ _ (fun hc => hk' hc.symm)]
      exact h.removed_inv id' hl'
  · by_cases hk' : id' = id
    · subst hk'
      rw [hself] at hl'
      exact absurd hl' (by simp)
    · rw [lookupSub_updateSub_ne m id id' _ hk'] at hl'
      rw [subBatchesL_cons_ok_ne _ _ _ _ _ (fun hc => hk' hc.symm)]
      exact h.none_inv id' hl'
  · by_cases hk' : id' = id
    · subst hk'
      rw [subBatchesL_cons_ok_self] at hb
      rcases List.mem_cons.mp hb with rfl | hb'
      · exact ⟨sq.cursor, by rw [hblen]; exact hbseqs⟩
      · exact h.batch_contig id' b hb'
    · rw [subBatchesL_cons_ok_ne _ _ _ _ _ (fun hc => hk' hc.symm)] at hb
      exact h.batch_contig id' b hb

theorem scinv_unsub {m : SubMap}
    {comp : List (Nat × Nat × Except QueryEventsError (List Event))}
    {id : Nat} {sq : SubQueue} (h : SCInv m comp)
    (hl : lookupSub m id = some (.active sq)) (ws : List Waiter) :
    SCInv (updateSub m id .removed)
      ((ws.map fun w => (w.caller, w.subId, .error (.Unsubscribed id))) ++
        comp) := by
  have hself : lookupSub (updateSub m id .removed) id = some .removed :=
    lookupSub_updateSub_self m id _ (by rw [hl]; exact fun hc => nomatch hc)
  refine ⟨fun id' sq' hl' => ?_, fun id' hl' => ?_, fun id' hl' => ?_,
    fun id' b hb => ?_⟩
  · by_cases hk : id' = id
    · subst hk
      rw [hself] at hl'
      exact absurd hl' (by simp)
    · rw [lookupSub_updateSub_ne m id id' _ hk] at hl'
      obtain ⟨h1, h2, h3⟩ := h.active_inv id' sq' hl'
      rw [deliveredSeqsL_unsub_prepend]
      exact ⟨h1, h2, h3⟩
  · rw [deliveredSeqsL_unsub_prepend]
    by_cases hk : id' = id
    · subst hk
      obtain ⟨_, _, hperm⟩ := h.active_inv id' sq hl
      exact hperm.symm.nodup (List.nodup_range _)
    · rw [lookupSub_updateSub_ne m id id' _ hk] at hl'
      exact h.removed_inv id' hl'
  · by_cases hk : id' = id
    · subst hk
      rw [hself] at hl'
      exact absurd hl' (by simp)
    · rw [lookupSub_updateSub_ne m id id' _ hk] at hl'
      rw [subBatchesL_unsub_prepend]
      exact h.none_inv id' hl'
  · rw [subBatchesL_unsub_prepend] at hb
    exact h.batch_contig id' b hb

theorem queryEventsChecked_done_inv {m : SubMap} {id : Nat} {t : Int}
    {cap : Option Int} {r : Except QueryEventsError (List Event)} {m' : SubMap}
    (h : queryEventsChecked m id t cap = .done r m') :
    (m' = m ∧ ((∃ err, r = .error err) ∨
      (r = .ok [] ∧ lookupSub m id ≠ none))) ∨
    (∃ sq, lookupSub m id = some (.active sq) ∧
      r = .ok (drain sq cap).1 ∧
      m' = updateSub m id (.active (drain sq cap).2)) := by
  unfold queryEventsChecked at h
  split at h
  next hls =>
    injection h with h1 h2
    exact Or.inl ⟨h2.symm, Or.inl ⟨_, h1.symm⟩⟩
  next hls =>
    injection h with h1 h2
    exact Or.inl ⟨h2.symm, Or.inl ⟨_, h1.symm⟩⟩
  next sq hls =>
    by_cases h0 : cap = some 0
    · rw [if_pos h0] at h
      injection h with h1 h2
      exact Or.inl ⟨h2.symm,
        Or.inr ⟨h1.symm, by rw [hls]; exact fun hc => nomatch hc⟩⟩
    · rw [if_neg h0] at h
      by_cases hq : sq.queue = []
      · rw [if_pos hq] at h
        by_cases ht : t < 0
        · rw [if_pos ht] at h
          injection h with h1 h2
          exact Or.inl ⟨h2.symm,
            Or.inr ⟨h1.symm, by rw [hls]; exact fun hc => nomatch hc⟩⟩
        · rw [if_neg ht] at h
          exact absurd h (by simp)
      · rw [if_neg hq] at h
        injection h with h1 h2
        exact Or.inr ⟨sq, hls, h1.symm, h2.symm⟩

theorem queryEvents_some_eq (m : SubMap) (id : Nat) (t : Int) (n : Int) :
    queryEvents m id t (some n) =
      if n < 0 then .done (.error (.InvalidMaxEvents n)) m
      else queryEventsChecked m id t (some n) := rfl

theorem queryEvents_none_eq (m : SubMap) (id : Nat) (t : Int) :
    queryEvents m id t none = queryEventsChecked m id t none := rfl

theorem queryEvents_done_inv {m : SubMap} {id : Nat} {t : Int}
    {cap : Option Int} {r : Except QueryEventsError (List Event)} {m' : SubMap}
    (h : queryEvents m id t cap = .done r m') :
    (m' = m ∧ ((∃ err, r = .error err) ∨
      (r = .ok [] ∧ lookupSub m id ≠ none))) ∨
    (∃ sq, lookupSub m id = some (.active sq) ∧
      r = .ok (drain sq cap).1 ∧
      m' = updateSub m id (.active (drain sq cap).2)) := by
  cases cap with
  | none =>
    rw [queryEvents_none_eq] at h
    exact queryEventsChecked_done_inv h
  | some n =>
    rw [queryEvents_some_eq] at h
    by_cases hn : n < 0
    · rw [if_pos hn] at h
      injection h with h1 h2
      exact Or.inl ⟨h2.symm, Or.inl ⟨_, h1.symm⟩⟩
    · rw [if_neg hn] at h
      exact queryEventsChecked_done_inv h

theorem freshCaller_not_mem {s : SysState} {c : Nat} (h : freshCaller s c) :
    c ∉ s.waiters.map Waiter.caller ∧ c ∉ s.completed.map (fun e => e.1) := by
  constructor
  · intro hc
    obtain ⟨w, hw, he⟩ := List.mem_map.mp hc
    exact h.1 w hw he
  · intro hc
    obtain ⟨e, hee, he⟩ := List.mem_map.mp hc
    exact h.2 e hee he

theorem nodup_insert_middle {l₁ l₂ : List Nat} {c : Nat}
    (hn : (l₁ ++ l₂).Nodup) (h1 : c ∉ l₁) (h2 : c ∉ l₂) :
    (l₁ ++ c :: l₂).Nodup :=
  List.Perm.nodup List.perm_middle.symm
    (List.nodup_cons.mpr ⟨fun hc => (List.mem_append.mp hc).elim h1 h2, hn⟩)

theorem nodup_callers_erase {ws : List Waiter}
    (comp : List (Nat × Nat × Except QueryEventsError (List Event)))
    {w : Waiter} (hw : w ∈ ws)
    (hn : (ws.map Waiter.caller ++ comp.map (fun e => e.1)).Nodup)
    (i : Nat) (r : Except QueryEventsError (List Event)) :
    ((ws.erase w).map Waiter.caller ++
      ((w.caller, i, r) :: comp).map (fun e => e.1)).Nodup := by
  refine List.Perm.nodup ?_ hn
  have hp : (ws.map Waiter.caller).Perm
      (w.caller :: (ws.erase w).map Waiter.caller) :=
    (List.perm_cons_erase hw).map _
  have hmid : ((ws.erase w).map Waiter.caller ++
      w.caller :: comp.map (fun e => e.1)).Perm
      (w.caller :: ((ws.erase w).map Waiter.caller ++
        comp.map (fun e => e.1))) :=
    List.perm_middle
  exact (hp.append_right _).trans hmid.symm

theorem nodup_callers_unsub (ws : List Waiter)
    (comp : List (Nat × Nat × Except QueryEventsError (List Event)))
    (id : Nat)
    (hn : (ws.map Waiter.caller ++ comp.map (fun e => e.1)).Nodup) :
    ((ws.filter (fun (w : Waiter) => !(w.subId == id))).map Waiter.caller ++
      ((ws.filter (fun (w : Waiter) => w.subId == id)).map
          (fun (w : Waiter) => (w.caller, w.subId,
            Except.error (QueryEventsError.Unsubscribed id))) ++
        comp).map
        (fun (e : Nat × Nat × Except QueryEventsError (List Event)) =>
          e.1)).Nodup := by
  refine List.Perm.nodup ?_ hn
  have hmm : ((ws.filter (fun (w : Waiter) => w.subId == id)).map
      (fun (w : Waiter) => (w.caller, w.subId,
        Except.error (QueryEventsError.Unsubscribed id))) ++
      comp).map
      (fun (e : Nat × Nat × Except QueryEventsError (List Event)) => e.1) =
      (ws.filter (fun (w : Waiter) => w.subId == id)).map Waiter.caller ++
        comp.map (fun e => e.1) := by
    rw [List.map_append, List.map_map]
    rfl
  rw [hmm, ← List.append_assoc]
  refine List.Perm.append_right _ ?_
  rw [← List.map_append]
  refine List.Perm.map _ ?_
  exact ((List.filter_append_perm (fun (w : Waiter) => w.subId == id)
    ws).symm).trans List.perm_append_comm

/-- Every step of the engine preserves the global invariant. -/
theorem inv_step {s s' : SysState} (h : Inv s) (hstep : Step s s') : Inv s' := by
  obtain ⟨hsc, hcal⟩ := h
  cases hstep with
  | subscribe id owner fresh =>
    exact ⟨scinv_subscribe hsc id owner fresh, hcal⟩
  | queryDone caller id t cap r m' hfresh hq =>
    constructor
    · rcases queryEvents_done_inv hq with ⟨rfl, hr⟩ | ⟨sq, hls, rfl, rfl⟩
      · rcases hr with ⟨err, rfl⟩ | ⟨rfl, hne⟩
        · exact scinv_consError hsc caller id err
        · exact scinv_okNil hsc caller id hne
      · exact scinv_drain hsc hls caller cap
    · obtain ⟨h1, h2⟩ := freshCaller_not_mem hfresh
      exact nodup_insert_middle hcal h1 h2
  | querySuspend caller id t cap hfresh hq =>
    refine ⟨hsc, ?_⟩
    obtain ⟨h1, h2⟩ := freshCaller_not_mem hfresh
    exact List.nodup_cons.mpr
      ⟨fun hc => (List.mem_append.mp hc).elim h1 h2, hcal⟩
  | inject id sq p hls =>
    exact ⟨scinv_inject hsc hls p, hcal⟩
  | wake w sq hw hls hne =>
    exact ⟨scinv_drain hsc hls w.caller w.maxEvents,
      nodup_callers_erase _ hw hcal _ _⟩
  | timeoutStep w sq hw hls hq =>
    exact ⟨scinv_okNil hsc w.caller w.subId
        (by rw [hls]; exact fun hc => nomatch hc),
      nodup_callers_erase _ hw hcal _ _⟩
  | unsub id owner m' hok =>
    obtain ⟨sq, hls, hown, rfl⟩ := unsubscribeSub_ok hok
    exact ⟨scinv_unsub hsc hls _, nodup_callers_unsub _ _ id hcal⟩

theorem inv_init : Inv initState := by
  refine ⟨⟨fun id sq h => ?_, fun id h => ?_, fun id h => rfl,
    fun id b hb => nomatch hb⟩, List.nodup_nil⟩
  · exact absurd h (by simp [lookupSub, initState])
  · exact absurd h (by simp [lookupSub, initState])

/-- The invariant holds in every reachable state. -/
theorem inv_reach {s : SysState} (h : Reach s) : Inv s := by
  induction h with
  | refl => exact inv_init
  | tail _ hstep ih => exact inv_step ih hstep

/-! ### Consequences: the concurrency and lifecycle claims -/

theorem pairwise_disjoint_of_nodup_flatten {L : List (List Event)}
    (h : (L.flatten.map Event.seqNo).Nodup) :
    List.Pairwise (fun (b₁ b₂ : List Event) => ∀ e, e ∈ b₁ → e ∉ b₂) L := by
  induction L with
  | nil => exact List.Pairwise.nil
  | cons b bs ih =>
    rw [List.flatten_cons, List.map_append] at h
    obtain ⟨h1, h2, hdisj⟩ := List.nodup_append.mp h
    refine List.Pairwise.cons ?_ (ih h2)
    intro b' hb' e heb heb'
    exact hdisj (List.mem_map.mpr ⟨e, heb, rfl⟩)
      (List.mem_map.mpr ⟨e, List.mem_flatten.mpr ⟨b', hb', heb'⟩, rfl⟩)

theorem step_completed_mono {t u : SysState} (hstep : Step t u) :
    ∀ e ∈ t.completed, e ∈ u.completed := by
  cases hstep <;> intro e he
  case subscribe => exact he
  case queryDone => exact List.mem_cons_of_mem _ he
  case querySuspend => exact he
  case inject => exact he
  case wake => exact List.mem_cons_of_mem _ he
  case timeoutStep => exact List.mem_cons_of_mem _ he
  case unsub => exact List.mem_append_right _ he

theorem steps_completed_mono {t u : SysState} (hsteps : Steps t u) :
    ∀ e ∈ t.completed, e ∈ u.completed := by
  induction hsteps with
  | refl => exact fun e he => he
  | tail _ hstep ih => exact fun e he => step_completed_mono hstep e (ih e he)

/-- C1 — no duplication across concurrent callers: in every reachable
state and for every live subscription, the batches returned so far are
pairwise disjoint, each batch is a contiguous ascending (FIFO) block of
sequence numbers, their union is — up to the unspecified distribution
across callers — exactly the set of sequence numbers below the delivery
cursor, and once the queue has been fully drained every injected event
has been delivered to exactly one caller and a further `query_events`
poll returns the empty list. -/
theorem c1_no_duplication (s : SysState) (h : Reach s) (id : Nat)
    (sq : SubQueue) (hl : lookupSub s.subs id = some (.active sq)) :
    (deliveredSeqsL s.completed id).Perm (List.range sq.cursor) ∧
    List.Pairwise (fun (b₁ b₂ : List Event) => ∀ e, e ∈ b₁ → e ∉ b₂)
      (subBatchesL s.completed id) ∧
    (∀ b ∈ subBatchesL s.completed id,
      ∃ a, b.map Event.seqNo = seqRange a b.length) ∧
    (sq.queue = [] →
      sq.cursor = sq.nextSeq ∧
      (deliveredSeqsL s.completed id).Perm (List.range sq.nextSeq) ∧
      queryEvents s.subs id (-1) (some 5) = .done (.ok []) s.subs) := by
  obtain ⟨hsc, _⟩ := inv_reach h
  obtain ⟨hq, hcn, hperm⟩ := hsc.active_inv id sq hl
  have hnodup : (deliveredSeqsL s.completed id).Nodup :=
    hperm.symm.nodup (List.nodup_range _)
  refine ⟨hperm, pairwise_disjoint_of_nodup_flatten hnodup,
    fun b hb => hsc.batch_contig id b hb, fun hqe => ?_⟩
  have hce : sq.cursor = sq.nextSeq := by
    have hlen := congrArg List.length hq
    rw [hqe] at hlen
    simp only [List.length_nil, List.map_nil, seqRange_length] at hlen
    omega
  refine ⟨hce, hce ▸ hperm, ?_⟩
  simp [queryEvents, queryEventsChecked, hl, hqe]

/-- C2 — at-most-once delivery: in every reachable state no sequence
number ever appears twice among all delivered events of a subscription;
and in any registry where a subscription holds exactly one pending
event, a first `query_events` call returns exactly that event and an
immediately following poll on the updated registry returns no event. -/
theorem c2_at_most_once (s : SysState) (h : Reach s) :
    (∀ id, (deliveredSeqsL s.completed id).Nodup) ∧
    (∀ (m : SubMap) (id : Nat) (sq : SubQueue) (e : Event),
      lookupSub m id = some (.active sq) → sq.queue = [e] →
      queryEvents m id 0 (some 5) =
        .done (.ok [e]) (updateSub m id (.active (drain sq (some 5)).2)) ∧
      queryEvents (updateSub m id (.active (drain sq (some 5)).2)) id
          (-1) (some 5) =
        .done (.ok []) (updateSub m id (.active (drain sq (some 5)).2))) := by
  obtain ⟨hsc, _⟩ := inv_reach h
  constructor
  · intro id
    cases hls : lookupSub s.subs id with
    | none =>
      rw [deliveredSeqsL, hsc.none_inv id hls]
      exact List.nodup_nil
    | some st =>
      cases st with
      | removed => exact hsc.removed_inv id hls
      | active sq =>
        exact (hsc.active_inv id sq hls).2.2.symm.nodup (List.nodup_range _)
  · intro m id sq e hl hqe
    have hb : (drain sq (some 5)).1 = [e] := by
      simp [drain, capTake, hqe]
    have hq2 : (drain sq (some 5)).2.queue = [] := by
      simp [drain, capTake, hqe]
    have hself : lookupSub (updateSub m id (.active (drain sq (some 5)).2))
        id = some (.active (drain sq (some 5)).2) :=
      lookupSub_updateSub_self m id _ (by rw [hl]; exact fun hc => nomatch hc)
    constructor
    · rw [queryEvents_some_eq, if_neg (by decide)]
      simp only [queryEventsChecked, hl, hb]
      rw [if_neg (by simp), if_neg (by simp [hqe])]
    · rw [queryEvents_some_eq, if_neg (by decide)]
      simp only [queryEventsChecked, hself]
      rw [if_neg (by simp), if_pos hq2, if_pos (by decide)]

/-- C3 — cancellation on unsubscribe: in any reachable state, when
`unsubscribe(id, owner)` succeeds, every caller blocked on `id` is
completed — in that very step — with the error `Unsubscribed(id)`, no
waiter on `id` remains, and in every later state that caller's recorded
result still exists and is still `Unsubscribed(id)` (it can never time
out with an empty result or receive events instead). -/
theorem c3_unsubscribe_cancels (s : SysState) (h : Reach s)
    (id owner : Nat) (m' : SubMap)
    (hok : unsubscribeSub s.subs id owner = .ok m')
    (w : Waiter) (hw : w ∈ s.waiters) (hid : w.subId = id) :
    Step s (unsubApply s id m') ∧
    (w.caller, id, Except.error (QueryEventsError.Unsubscribed id)) ∈
      (unsubApply s id m').completed ∧
    (∀ w' ∈ (unsubApply s id m').waiters, w'.subId ≠ id) ∧
    (∀ s'', Steps (unsubApply s id m') s'' →
      (w.caller, id, Except.error (QueryEventsError.Unsubscribed id)) ∈
        s''.completed ∧
      ∀ sid r, (w.caller, sid, r) ∈ s''.completed →
        sid = id ∧ r = Except.error (QueryEventsError.Unsubscribed id)) := by
  have hstep : Step s (unsubApply s id m') := Step.unsub s id owner m' hok
  have hmem : (w.caller, id,
      Except.error (QueryEventsError.Unsubscribed id)) ∈
      (unsubApply s id m').completed := by
    refine List.mem_append_left _ ?_
    refine List.mem_map.mpr ⟨w, ?_, ?_⟩
    · exact List.mem_filter.mpr ⟨hw, by simp [hid]⟩
    · rw [hid]
  refine ⟨hstep, hmem, fun w' hw' => ?_, fun s'' hs'' => ?_⟩
  · have := (List.mem_filter.mp hw').2
    simpa using this
  · have hreach'' : Reach s'' :=
      Steps.trans (Steps.tail h hstep) hs''
    obtain ⟨_, hcal⟩ := inv_reach hreach''
    have hnodup : (s''.completed.map (fun e => e.1)).Nodup :=
      hcal.of_append_right
    have hmem'' : (w.caller, id,
        Except.error (QueryEventsError.Unsubscribed id)) ∈ s''.completed :=
      steps_completed_mono hs'' _ hmem
    refine ⟨hmem'', fun sid r hr => ?_⟩
    have heq := List.inj_on_of_nodup_map hnodup hmem'' hr rfl
    have h1 : id = sid := congrArg (fun e => e.2.1) heq
    have h2 : Except.error (QueryEventsError.Unsubscribed id) = r :=
      congrArg (fun e => e.2.2) heq
    exact ⟨h1.symm, h2.symm⟩

/-! ### Concrete reachable states for the witnesses -/

/-- A sample proposal injected first in the concurrency scenario. -/
def qa : Proposal := ⟨21, 0, none, PState.Initial⟩

/-- A sample proposal injected second in the concurrency scenario. -/
def qb : Proposal := ⟨22, 0, none, PState.Initial⟩

/-- State after: subscribe; two suspended callers each woken by one of
two injected events — the `test_simultaneous_query_events` scenario. -/
def c1State : SysState :=
  ⟨[(0, SubState.active ⟨7, [], 2, 2⟩)], [],
   [(2, 0, .ok [⟨1, qb⟩]), (1, 0, .ok [⟨0, qa⟩])]⟩

theorem c1State_reach : Reach c1State :=
  Steps.tail
    (Steps.tail
      (Steps.tail
        (Steps.tail
          (Steps.tail
            (Steps.tail
              (Steps.tail (Steps.refl initState)
                (Step.subscribe initState 0 7 rfl))
              (Step.querySuspend _ 1 0 1 (some 5) (by decide) rfl))
            (Step.inject _ 0 ⟨7, [], 0, 0⟩ qa rfl))
          (Step.wake _ ⟨1, 0, some 5⟩ ⟨7, [⟨0, qa⟩], 0, 1⟩ (by decide) rfl
            (by decide)))
        (Step.querySuspend _ 2 0 1 (some 5) (by decide) rfl))
      (Step.inject _ 0 ⟨7, [], 1, 1⟩ qb rfl))
    (Step.wake _ ⟨2, 0, some 5⟩ ⟨7, [⟨1, qb⟩], 1, 2⟩ (by decide) rfl
      (by decide))

/-- State after subscribing and injecting one proposal. -/
def oneEventState : SysState :=
  ⟨[(0, SubState.active ⟨7, [⟨0, qa⟩], 0, 1⟩)], [], []⟩

theorem oneEventState_reach : Reach oneEventState :=
  Steps.tail
    (Steps.tail (Steps.refl initState) (Step.subscribe initState 0 7 rfl))
    (Step.inject _ 0 ⟨7, [], 0, 0⟩ qa rfl)

/-- State with one subscription and one caller suspended on it. -/
def waitState : SysState :=
  ⟨[(0, SubState.active ⟨7, [], 0, 0⟩)], [⟨1, 0, some 5⟩], []⟩

theorem waitState_reach : Reach waitState :=
  Steps.tail
    (Steps.tail (Steps.refl initState) (Step.subscribe initState 0 7 rfl))
    (Step.querySuspend _ 1 0 1 (some 5) (by decide) rfl)

/-- Witness for C1: the two-caller/two-event scenario of
`test_simultaneous_query_events`: 2 events delivered in total, no
duplicate, and a subsequent call returns `[]`. -/
theorem c1_no_duplication_witness :
    (deliveredSeqsL c1State.completed 0).Perm (List.range 2) ∧
    List.Pairwise (fun (b₁ b₂ : List Event) => ∀ e, e ∈ b₁ → e ∉ b₂)
      (subBatchesL c1State.completed 0) ∧
    (∀ b ∈ subBatchesL c1State.completed 0,
      ∃ a, b.map Event.seqNo = seqRange a b.length) ∧
    (([] : List Event) = [] →
      (2 : Nat) = 2 ∧
      (deliveredSeqsL c1State.completed 0).Perm (List.range 2) ∧
      queryEvents c1State.subs 0 (-1) (some 5) =
        .done (.ok []) c1State.subs) :=
  c1_no_duplication c1State c1State_reach 0 ⟨7, [], 2, 2⟩ (by decide)

/-- Witness for C2: at-most-once delivery at the one-pending-event
state. -/
theorem c2_at_most_once_witness :
    (∀ id, (deliveredSeqsL oneEventState.completed id).Nodup) ∧
    (∀ (m : SubMap) (id : Nat) (sq : SubQueue) (e : Event),
      lookupSub m id = some (.active sq) → sq.queue = [e] →
      queryEvents m id 0 (some 5) =
        .done (.ok [e]) (updateSub m id (.active (drain sq (some 5)).2)) ∧
      queryEvents (updateSub m id (.active (drain sq (some 5)).2)) id
          (-1) (some 5) =
        .done (.ok []) (updateSub m id (.active (drain sq (some 5)).2))) :=
  c2_at_most_once oneEventState oneEventState_reach

/-- Witness for C3: a caller suspended on subscription 0 is cancelled
with `Unsubscribed 0` when the subscription is removed mid-wait. -/
theorem c3_unsubscribe_cancels_witness :
    Step waitState (unsubApply waitState 0 [(0, SubState.removed)]) ∧
    (1, 0, Except.error (QueryEventsError.Unsubscribed 0)) ∈
      (unsubApply waitState 0 [(0, SubState.removed)]).completed ∧
    (∀ w' ∈ (unsubApply waitState 0 [(0, SubState.removed)]).waiters,
      w'.subId ≠ 0) ∧
    (∀ s'', Steps (unsubApply waitState 0 [(0, SubState.removed)]) s'' →
      (1, 0, Except.error (QueryEventsError.Unsubscribed 0)) ∈
        s''.completed ∧
      ∀ sid r, (1, sid, r) ∈ s''.completed →
        sid = 0 ∧ r = Except.error (QueryEventsError.Unsubscribed 0)) :=
  c3_unsubscribe_cancels waitState waitState_reach 0 7
    [(0, SubState.removed)] (by decide) ⟨1, 0, some 5⟩ (by decide) rfl

end Yagna

namespace ZkSyncWallet

/-! ## The zksync payment-driver `get_nonce`
(`core/payment-driver/zksync/src/zksync/wallet.rs`, lines 121–138)

`get_nonce` slices off the first two bytes of the address string
(`&address[2..]`), parses the rest with `Address::from_str`, asks the
provider for the account info, and returns the committed nonce; on a
parse failure or a provider failure it logs and returns `0`.  Strings
are modelled as lists of characters (the addresses in question are
ASCII), the provider as a function parameter, and a Rust panic as
`none`. -/

/-- Value of a hexadecimal digit, as accepted by the hex decoder
behind `Address::from_str`. -/
def hexVal (c : Char) : Option Nat :=
  if c.isDigit then some (c.toNat - '0'.toNat)
  else if 'a' ≤ c ∧ c ≤ 'f' then some (c.toNat - 'a'.toNat + 10)
  else if 'A' ≤ c ∧ c ≤ 'F' then some (c.toNat - 'A'.toNat + 10)
  else none

/-- The zksync crate's `Address::from_str` (H160): exactly forty
hexadecimal characters, decoded to the twenty-byte address; anything
else is an error.  External collaborator of the embedded code. -/
def address_from_str (s : List Char) : Option (List Nat) :=
  if s.length = 40 then s.mapM hexVal else none

/-- Embedded from `wallet.rs` lines 121–138.  `Ok(a)`/`Err` of
`Address::from_str` and of `provider.account_info` map to the two
`match` arms of the source; the `return 0` arms are the logged
fallbacks.  The initial bounds check models the Rust slice
`&address[2..]`, which panics (here: `none`) when the string is
shorter than two bytes. -/
def get_nonce (address : List Char)
    (account_info : List Nat → Except Unit Nat) : Option Nat :=
  if 2 ≤ address.length then
    match address_from_str (address.drop 2) with
    | none => some 0
    | some addr =>
      match account_info addr with
      | .error _ => some 0
      | .ok n => some n
  else none

/-- A provider whose `account_info` always succeeds with nonce 7. -/
def constProvider : List Nat → Except Unit Nat := fun _ => Except.ok 7

theorem get_nonce_parse_fail {address : List Char}
    {account_info : List Nat → Except Unit Nat}
    (hlen : 2 ≤ address.length)
    (hp : address_from_str (address.drop 2) = none) :
    get_nonce address account_info = some 0 := by
  unfold get_nonce
  rw [if_pos hlen, hp]

theorem get_nonce_parsed {address : List Char}
    {account_info : List Nat → Except Unit Nat} {a : List Nat}
    (hlen : 2 ≤ address.length)
    (hp : address_from_str (address.drop 2) = some a) :
    get_nonce address account_info =
      match account_info a with
      | .error _ => some 0
      | .ok n => some n := by
  unfold get_nonce
  rw [if_pos hlen, hp]

/-- Counterexample to C10 as stated: the claim says `get_nonce` "never
fails and never panics on bad input", but on the one-character address
string "0" the source's very first expression `&address[2..]` is an
out-of-bounds string slice, which panics — it does not return the
sentinel 0 (nor anything else). -/
theorem c10_counterexample :
    get_nonce [Char.ofNat 48] constProvider = none := rfl

/-- C10 (amended) — for every address string of at least two bytes,
`get_nonce` always produces a value: when the remainder after the first
two characters does not parse as an address, or when the provider's
`account_info` fails, it returns the sentinel 0, which is exactly what
it also returns for a successfully fetched nonce of 0 — the failure
cases are indistinguishable from a genuine zero nonce at the public
interface.  (Address strings shorter than two bytes instead panic on
the slice `&address[2..]`, per the counterexample.) -/
theorem c10_get_nonce_total (address : List Char)
    (account_info : List Nat → Except Unit Nat)
    (hlen : 2 ≤ address.length) :
    (∃ n, get_nonce address account_info = some n) ∧
    (address_from_str (address.drop 2) = none →
      get_nonce address account_info = some 0) ∧
    (∀ a, address_from_str (address.drop 2) = some a →
      (∀ e : Unit, account_info a = .error e →
        get_nonce address account_info = some 0) ∧
      (account_info a = .ok 0 →
        get_nonce address account_info = some 0)) := by
  refine ⟨?_, fun hp => get_nonce_parse_fail hlen hp,
    fun a hp => ⟨fun e he => ?_, fun h0 => ?_⟩⟩
  · cases hp : address_from_str (address.drop 2) with
    | none => exact ⟨0, get_nonce_parse_fail hlen hp⟩
    | some a =>
      cases hacc : account_info a with
      | error e => exact ⟨0, by rw [get_nonce_parsed hlen hp, hacc]⟩
      | ok n => exact ⟨n, by rw [get_nonce_parsed hlen hp, hacc]⟩
  · rw [get_nonce_parsed hlen hp, he]
  · rw [get_nonce_parsed hlen hp, h0]

/-- Witness for C10's amended statement: the two-byte address "0x",
whose remainder is empty and fails to parse, yields the sentinel 0. -/
theorem c10_get_nonce_total_witness :
    (∃ n, get_nonce [Char.ofNat 48, Char.ofNat 120] constProvider =
      some n) ∧
    (address_from_str (([Char.ofNat 48, Char.ofNat 120]).drop 2) = none →
      get_nonce [Char.ofNat 48, Char.ofNat 120] constProvider = some 0) ∧
    (∀ a, address_from_str (([Char.ofNat 48, Char.ofNat 120]).drop 2) =
        some a →
      (∀ e : Unit, constProvider a = Except.error e →
        get_nonce [Char.ofNat 48, Char.ofNat 120] constProvider =
          some 0) ∧
      (constProvider a = Except.ok 0 →
        get_nonce [Char.ofNat 48, Char.ofNat 120] constProvider =
          some 0)) :=
  c10_get_nonce_total [Char.ofNat 48, Char.ofNat 120] constProvider
    (by decide)

end ZkSyncWallet
